import Mathlib

/-!
Verification of the playmaster test orchestrator against its specification.

The definitions below are a shallow embedding of the relevant Rust source:

* `src/hooks/iface.rs`     — hook types, phase lists, `hooks_of_type`
* `src/code_run/run.rs`    — `CodeRun::run_hooks_of_type`, `CodeRun::execute`
* `src/utils/execution.rs` — the process-wide `IS_RUNNING` flag
* `src/hooks/custom.rs`    — `HookCustom` run variants
* `src/utils/command.rs`   — `run_command_str`, `with_env_source`,
  `terminate_remote_cmds`
* `src/utils/dbus.rs`      — continuation-request detection and the DBus
  continue command
* `src/code_run/run_flutter.rs` — the `process_lines` output parser
* `src/models/app_state.rs`     — the remote stream reader's line splitting

Side effects that the claims do not touch (logging, progress spinners,
file loggers, actual process spawning, SSH traffic) are dropped; fallible
operations are represented with `Except`.  The `Results` record and the
`HookContext` accessor methods that mutate it are referenced by the source
under verification but their definitions are not part of this source tree,
so they are modelled from the spec (each such definition says so in its
doc comment).
-/

namespace Playmaster

/-- Hook phases, from `HookType` in `src/hooks/iface.rs`. -/
inductive HookType where
  | connect
  | verifySystem
  | prepareSystem
  | finished
deriving DecidableEq, Repr

/-- Debug rendering of a phase, as Rust's `{:?}` formatting prints it;
used in the phase-qualified error messages of `CodeRun::execute`. -/
def hookTypeName : HookType → String
  | .connect => "Connect"
  | .verifySystem => "VerifySystem"
  | .prepareSystem => "PrepareSystem"
  | .finished => "Finished"

/-- Pre-execution phases in their fixed order (`HookType::pre_hooks`). -/
def HookType.pre_hooks : List HookType :=
  [HookType.connect, HookType.verifySystem, HookType.prepareSystem]

/-- Post-execution phases (`HookType::post_hooks`). -/
def HookType.post_hooks : List HookType := [HookType.finished]

instance : DecidableEq (Except String Unit) := fun a b =>
  match a, b with
  | .ok (), .ok () => isTrue rfl
  | .ok (), .error _ => isFalse (fun h => Except.noConfusion h)
  | .error _, .ok () => isFalse (fun h => Except.noConfusion h)
  | .error s, .error t =>
    if h : s = t then isTrue (by rw [h]) else
      isFalse (fun hc => h (Except.error.injEq .. ▸ hc))

/-- A hook as seen by the pipeline (trait `Hook` in `src/hooks/iface.rs`):
its phase, its `continue_on_error()` answer, and the outcome its `run(ctx)`
produces at the point of the run where the pipeline reaches it.  The
side effects of `run` are irrelevant to the pipeline claims, so `run` is
abstracted by its returned `Result`. -/
structure Hook where
  name : String
  hook_type : HookType
  cont_on_error : Bool
  runResult : Except String Unit
deriving DecidableEq

/-- Filter of a hook list by phase, preserving list order
(`HookListExt::hooks_of_type` in `src/hooks/iface.rs`). -/
def hooks_of_type (hooks : List Hook) (t : HookType) : List Hook :=
  hooks.filter (fun h => h.hook_type = t)

/-- Loop body of `CodeRun::run_hooks_of_type` over the already-filtered
hook list: each hook runs unless `continue_on_error()` is false while
`has_error` is true; the `?` operator makes the first failure return
immediately.  Returns the executed hooks in order, and the result. -/
def runHooksGo (has_error : Bool) : List Hook → List Hook × Except String Unit
  | [] => ([], Except.ok ())
  | h :: rest =>
    if h.cont_on_error || !has_error then
      match h.runResult with
      | Except.error e => ([h], Except.error e)
      | Except.ok _ =>
        let p := runHooksGo has_error rest
        (h :: p.1, p.2)
    else runHooksGo has_error rest

/-- `CodeRun::run_hooks_of_type` from `src/code_run/run.rs`: filter the
configured hook list by phase and run the filtered hooks in order. -/
def run_hooks_of_type (hooks : List Hook) (t : HookType) (has_error : Bool) :
    List Hook × Except String Unit :=
  runHooksGo has_error (hooks_of_type hooks t)

/-- Message recorded by `CodeRun::execute` when a pre-hook phase fails
(`format!("Pre-hook error {:?} failed: {}", hook_type, err)`). -/
def preErrMsg (t : HookType) (e : String) : String :=
  "Pre-hook error " ++ hookTypeName t ++ " failed: " ++ e

/-- Message recorded by `CodeRun::execute` when a post-hook phase fails
(`format!("Post-hook {:?} failed: {}", hook_type, err)`). -/
def postErrMsg (t : HookType) (e : String) : String :=
  "Post-hook " ++ hookTypeName t ++ " failed: " ++ e

/-- Outcome of a sequence of phases: executed hooks in order, the
`has_error` flag afterwards, and the accumulated `Results.error`
messages. -/
structure PhasesOut where
  trace : List Hook
  has_error : Bool
  errs : List String
deriving DecidableEq

/-- The pre-hook loop of `CodeRun::execute`: run each phase; on a phase
error set `has_error`, record the phase-qualified message, and stop early
when `ExecutionUtils::is_running()` is false.  `running` models the value
the `IS_RUNNING` flag has while the loop runs. -/
def runPre (hooks : List Hook) (running : Bool) :
    List HookType → Bool → List String → PhasesOut
  | [], he, errs => ⟨[], he, errs⟩
  | t :: rest, he, errs =>
    match run_hooks_of_type hooks t he with
    | (tr, Except.ok _) =>
      let p := runPre hooks running rest he errs
      ⟨tr ++ p.trace, p.has_error, p.errs⟩
    | (tr, Except.error e) =>
      if running then
        let p := runPre hooks running rest true (errs ++ [preErrMsg t e])
        ⟨tr ++ p.trace, p.has_error, p.errs⟩
      else ⟨tr, true, errs ++ [preErrMsg t e]⟩

/-- The post-hook loop of `CodeRun::execute`: run each phase; on a phase
error set `has_error` and record the phase-qualified message (no early
exit). -/
def runPost (hooks : List Hook) :
    List HookType → Bool → List String → PhasesOut
  | [], he, errs => ⟨[], he, errs⟩
  | t :: rest, he, errs =>
    match run_hooks_of_type hooks t he with
    | (tr, Except.ok _) =>
      let p := runPost hooks rest he errs
      ⟨tr ++ p.trace, p.has_error, p.errs⟩
    | (tr, Except.error e) =>
      let p := runPost hooks rest true (errs ++ [postErrMsg t e])
      ⟨tr ++ p.trace, p.has_error, p.errs⟩

/-- Outcome of `CodeRun::execute`: executed hooks in order, recorded
`Results.error` messages, the final `has_error` flag, whether
`CodeRun::run_tests` was invoked, and the returned result. -/
structure ExecOut where
  trace : List Hook
  resultsErrors : List String
  has_error : Bool
  ranTests : Bool
  res : Except String Unit
deriving DecidableEq

/-- `CodeRun::execute` from `src/code_run/run.rs`.  `featuresErr` is the
outcome of `FeatureTest::all_from_curr_dir` (`none` means the feature
tests loaded); `running` is the value of the `IS_RUNNING` flag;
`testsResult` abstracts what `CodeRun::run_tests` would return if
invoked.  `terminate_all_cmds` and logging have no bearing on the claims
and are dropped.  `ctx.add_results_error` appends to `Results.error`
(modelled from the spec: the accessor is not part of this source tree). -/
def execute (hooks : List Hook) (featuresErr : Option String) (running : Bool)
    (testsResult : Except String Unit) : ExecOut :=
  match featuresErr with
  | some e =>
    let errs0 := ["Failed to load feature tests: " ++ e]
    let p := runPost hooks [HookType.finished] true errs0
    ⟨p.trace, p.errs, true, false, Except.error "Failed to load feature tests"⟩
  | none =>
    let pre := runPre hooks running HookType.pre_hooks false []
    let ranTests := !pre.has_error && running
    let res := if ranTests then testsResult else Except.error "Pre-hook failed"
    let post := runPost hooks HookType.post_hooks pre.has_error pre.errs
    ⟨pre.trace ++ post.trace, post.errs, post.has_error, ranTests, res⟩

/-- The process-wide running flag (`IS_RUNNING` in `src/utils/execution.rs`)
after a sequence of `set_running` calls: it is initialized to `false` and
each call overwrites it. -/
def is_running_value (writes : List Bool) : Bool :=
  writes.foldl (fun _ w => w) false

/-- Concatenation of the phase filters of a hook list, in phase-list
order; the reference ordering for the pipeline ordering property. -/
def concatHooks (hooks : List Hook) : List HookType → List Hook
  | [] => []
  | t :: rest => hooks_of_type hooks t ++ concatHooks hooks rest

lemma runHooksGo_sublist (has_error : Bool) :
    ∀ l : List Hook, List.Sublist (runHooksGo has_error l).1 l := by
  intro l
  induction l with
  | nil => simp [runHooksGo]
  | cons h rest ih =>
    simp only [runHooksGo]
    split
    · cases hr : h.runResult with
      | error e => simp
      | ok u => simpa using List.Sublist.cons₂ h ih
    · exact ih.cons h

lemma run_hooks_of_type_sublist (hooks : List Hook) (t : HookType)
    (has_error : Bool) :
    List.Sublist (run_hooks_of_type hooks t has_error).1
      (hooks_of_type hooks t) :=
  runHooksGo_sublist has_error _

lemma runPre_sublist (hooks : List Hook) (running : Bool) :
    ∀ (ts : List HookType) (he : Bool) (errs : List String),
      List.Sublist (runPre hooks running ts he errs).trace
        (concatHooks hooks ts) := by
  intro ts
  induction ts with
  | nil => intro he errs; simp [runPre, concatHooks]
  | cons t rest ih =>
    intro he errs
    simp only [runPre, concatHooks]
    rcases hr : run_hooks_of_type hooks t he with ⟨tr, r⟩
    have htr : List.Sublist tr (hooks_of_type hooks t) := by
      have := run_hooks_of_type_sublist hooks t he
      rwa [hr] at this
    cases r with
    | ok u => simpa using htr.append (ih he errs)
    | error e =>
      by_cases hrun : running = true
      · rw [hrun] at ih ⊢
        simpa using htr.append (ih true (errs ++ [preErrMsg t e]))
      · have hrun2 : running = false := by simpa using hrun
        rw [hrun2] at ih ⊢
        simpa using htr.trans (List.sublist_append_left _ (concatHooks hooks rest))

lemma runPost_sublist (hooks : List Hook) :
    ∀ (ts : List HookType) (he : Bool) (errs : List String),
      List.Sublist (runPost hooks ts he errs).trace
        (concatHooks hooks ts) := by
  intro ts
  induction ts with
  | nil => intro he errs; simp [runPost, concatHooks]
  | cons t rest ih =>
    intro he errs
    simp only [runPost, concatHooks]
    rcases hr : run_hooks_of_type hooks t he with ⟨tr, r⟩
    have htr : List.Sublist tr (hooks_of_type hooks t) := by
      have := run_hooks_of_type_sublist hooks t he
      rwa [hr] at this
    cases r with
    | ok u => simpa using htr.append (ih he errs)
    | error e => simpa using htr.append (ih true (errs ++ [postErrMsg t e]))

/-- Claim C5: the hooks actually executed by `CodeRun::execute` appear in
the concatenation order [all Connect hooks, all VerifySystem hooks, all
PrepareSystem hooks, all Finished hooks], and within each phase group in
the order of the configured hook list: the executed trace is a sublist of
that concatenation, for every hook list and every run condition. -/
theorem C5_phase_ordering (hooks : List Hook) (featuresErr : Option String)
    (running : Bool) (testsResult : Except String Unit) :
    List.Sublist (execute hooks featuresErr running testsResult).trace
      (hooks_of_type hooks HookType.connect ++
        (hooks_of_type hooks HookType.verifySystem ++
          (hooks_of_type hooks HookType.prepareSystem ++
            hooks_of_type hooks HookType.finished))) := by
  have hconcat : concatHooks hooks (HookType.pre_hooks ++ HookType.post_hooks) =
      hooks_of_type hooks HookType.connect ++
        (hooks_of_type hooks HookType.verifySystem ++
          (hooks_of_type hooks HookType.prepareSystem ++
            hooks_of_type hooks HookType.finished)) := by
    simp [concatHooks, HookType.pre_hooks, HookType.post_hooks]
  rw [← hconcat]
  cases featuresErr with
  | some e =>
    simp only [execute]
    have hpost := runPost_sublist hooks [HookType.finished] true
      ["Failed to load feature tests: " ++ e]
    have : concatHooks hooks (HookType.pre_hooks ++ HookType.post_hooks) =
        concatHooks hooks HookType.pre_hooks ++ concatHooks hooks [HookType.finished] := by
      simp [concatHooks, HookType.pre_hooks, HookType.post_hooks]
    rw [this]
    exact hpost.trans (List.sublist_append_right _ _)
  | none =>
    simp only [execute]
    have hpre := runPre_sublist hooks running HookType.pre_hooks false []
    have hpost := runPost_sublist hooks HookType.post_hooks
      (runPre hooks running HookType.pre_hooks false []).has_error
      (runPre hooks running HookType.pre_hooks false []).errs
    have : concatHooks hooks (HookType.pre_hooks ++ HookType.post_hooks) =
        concatHooks hooks HookType.pre_hooks ++ concatHooks hooks HookType.post_hooks := by
      simp [concatHooks, HookType.pre_hooks, HookType.post_hooks]
    rw [this]
    exact hpre.append hpost

lemma is_running_value_all_false (writes : List Bool)
    (h : ∀ w ∈ writes, w = false) : is_running_value writes = false := by
  induction writes using List.reverseRecOn with
  | nil => rfl
  | append_singleton ws w ih =>
    have : w = false := h w (by simp)
    simp [is_running_value, this]

/-- Claim C1 (code bug): `IS_RUNNING` is initialized to `false` and the
only `set_running` call in the program is the signal listener's
`set_running(false)`, so `ExecutionUtils::is_running()` is false from
process start even when no termination signal was delivered; therefore
`CodeRun::execute` never invokes `CodeRun::run_tests` and, whenever the
feature tests load, returns the error "Pre-hook failed" even on a run
whose pre-hook phases all succeeded. -/
theorem C1_run_tests_never_invoked (hooks : List Hook)
    (featuresErr : Option String) (testsResult : Except String Unit)
    (writes : List Bool) (hw : ∀ w ∈ writes, w = false) :
    (execute hooks featuresErr (is_running_value writes) testsResult).ranTests
        = false
    ∧ (featuresErr = none →
        (execute hooks featuresErr (is_running_value writes) testsResult).res
          = Except.error "Pre-hook failed") := by
  rw [is_running_value_all_false writes hw]
  cases featuresErr with
  | some e => simp [execute]
  | none => simp [execute]

/-- Claim C1 witness: with no signal delivered (no flag writes) and no
hooks at all, the feature tests loading fine and the test runner ready to
succeed, `execute` still does not invoke `run_tests` and returns the
"Pre-hook failed" error. -/
theorem C1_run_tests_never_invoked_witness :
    (execute [] none (is_running_value []) (Except.ok ())).ranTests = false
    ∧ (execute [] none (is_running_value []) (Except.ok ())).res
        = Except.error "Pre-hook failed" := by
  have h := C1_run_tests_never_invoked [] none (Except.ok ()) []
    (by intro w hw; cases hw)
  exact ⟨h.1, h.2 rfl⟩

lemma runPre_he_true (hooks : List Hook) (running : Bool) :
    ∀ (ts : List HookType) (errs : List String),
      (runPre hooks running ts true errs).has_error = true := by
  intro ts
  induction ts with
  | nil => intro errs; rfl
  | cons t rest ih =>
    intro errs
    simp only [runPre]
    rcases hr : run_hooks_of_type hooks t true with ⟨tr, r⟩
    cases r with
    | ok u => simpa using ih errs
    | error e =>
      by_cases hrun : running = true
      · rw [hrun] at ih ⊢
        simpa using ih (errs ++ [preErrMsg t e])
      · have hrun2 : running = false := by simpa using hrun
        rw [hrun2] at ih ⊢
        simp

lemma runPost_he_true (hooks : List Hook) :
    ∀ (ts : List HookType) (errs : List String),
      (runPost hooks ts true errs).has_error = true := by
  intro ts
  induction ts with
  | nil => intro errs; rfl
  | cons t rest ih =>
    intro errs
    simp only [runPost]
    rcases hr : run_hooks_of_type hooks t true with ⟨tr, r⟩
    cases r with
    | ok u => simpa using ih errs
    | error e => simpa using ih (errs ++ [postErrMsg t e])

lemma runPre_errs_mono (hooks : List Hook) (running : Bool) :
    ∀ (ts : List HookType) (he : Bool) (errs : List String),
      ∃ tail, (runPre hooks running ts he errs).errs = errs ++ tail := by
  intro ts
  induction ts with
  | nil => intro he errs; exact ⟨[], by simp [runPre]⟩
  | cons t rest ih =>
    intro he errs
    simp only [runPre]
    rcases hr : run_hooks_of_type hooks t he with ⟨tr, r⟩
    cases r with
    | ok u =>
      obtain ⟨tail, htail⟩ := ih he errs
      exact ⟨tail, by simpa using htail⟩
    | error e =>
      by_cases hrun : running = true
      · rw [hrun] at ih ⊢
        obtain ⟨tail, htail⟩ := ih true (errs ++ [preErrMsg t e])
        exact ⟨preErrMsg t e :: tail, by simpa using htail⟩
      · have hrun2 : running = false := by simpa using hrun
        rw [hrun2]
        exact ⟨[preErrMsg t e], by simp⟩

lemma runPost_errs_mono (hooks : List Hook) :
    ∀ (ts : List HookType) (he : Bool) (errs : List String),
      ∃ tail, (runPost hooks ts he errs).errs = errs ++ tail := by
  intro ts
  induction ts with
  | nil => intro he errs; exact ⟨[], by simp [runPost]⟩
  | cons t rest ih =>
    intro he errs
    simp only [runPost]
    rcases hr : run_hooks_of_type hooks t he with ⟨tr, r⟩
    cases r with
    | ok u =>
      obtain ⟨tail, htail⟩ := ih he errs
      exact ⟨tail, by simpa using htail⟩
    | error e =>
      obtain ⟨tail, htail⟩ := ih true (errs ++ [postErrMsg t e])
      exact ⟨postErrMsg t e :: tail, by simpa using htail⟩

lemma runHooksGo_error_shape (has_error : Bool) :
    ∀ (l : List Hook) (e : String),
      (runHooksGo has_error l).2 = Except.error e →
      ∃ tr h, (runHooksGo has_error l).1 = tr ++ [h]
        ∧ h.runResult = Except.error e
        ∧ ∀ h' ∈ tr, h'.runResult = Except.ok () := by
  intro l
  induction l with
  | nil => intro e he; simp [runHooksGo] at he
  | cons h rest ih =>
    intro e he
    simp only [runHooksGo] at he ⊢
    by_cases hc : (h.cont_on_error || !has_error) = true
    · rw [if_pos hc] at he ⊢
      cases hr : h.runResult with
      | error e2 =>
        rw [hr] at he
        simp at he
        subst he
        exact ⟨[], h, by simp, hr, by simp⟩
      | ok u =>
        rw [hr] at he
        obtain ⟨tr, hh, htr, hres, hall⟩ := ih e he
        refine ⟨h :: tr, hh, ?_, hres, ?_⟩
        · show h :: (runHooksGo has_error rest).1 = (h :: tr) ++ [hh]
          simp [htr]
        · intro h' hmem
          rcases List.mem_cons.mp hmem with hh' | hh'
          · rw [hh']; cases u; exact hr
          · exact hall h' hh'
    · rw [if_neg hc] at he ⊢
      exact ih e he

lemma runPre_ok_head (hooks : List Hook) (running : Bool) (t : HookType)
    (rest : List HookType) (he : Bool) (errs : List String)
    (hok : (run_hooks_of_type hooks t he).2 = Except.ok ()) :
    runPre hooks running (t :: rest) he errs =
      ⟨(run_hooks_of_type hooks t he).1 ++
          (runPre hooks running rest he errs).trace,
        (runPre hooks running rest he errs).has_error,
        (runPre hooks running rest he errs).errs⟩ := by
  simp only [runPre]
  rcases hc : run_hooks_of_type hooks t he with ⟨tr, r⟩
  rw [hc] at hok
  cases r with
  | ok u => simp
  | error e => simp at hok

lemma runPre_fail_head (hooks : List Hook) (running : Bool) (t : HookType)
    (rest : List HookType) (errs : List String) (e : String)
    (hfail : (run_hooks_of_type hooks t false).2 = Except.error e) :
    preErrMsg t e ∈ (runPre hooks running (t :: rest) false errs).errs
    ∧ (runPre hooks running (t :: rest) false errs).has_error = true := by
  simp only [runPre]
  rcases hc : run_hooks_of_type hooks t false with ⟨tr, r⟩
  rw [hc] at hfail
  cases r with
  | ok u => simp at hfail
  | error e2 =>
    simp at hfail
    subst hfail
    by_cases hrun : running = true
    · rw [hrun]
      simp only [if_true]
      obtain ⟨tail, htail⟩ :=
        runPre_errs_mono hooks true rest true (errs ++ [preErrMsg t e2])
      constructor
      · show preErrMsg t e2 ∈
          (runPre hooks true rest true (errs ++ [preErrMsg t e2])).errs
        rw [htail]
        simp
      · exact runPre_he_true hooks true rest (errs ++ [preErrMsg t e2])
    · have hrun2 : running = false := by simpa using hrun
      rw [hrun2]
      simp

lemma runPre_records_fail (hooks : List Hook) (running : Bool) (t : HookType)
    (e : String) (ht : t ∈ HookType.pre_hooks)
    (hprev : ∀ t' ∈ HookType.pre_hooks.takeWhile (fun x => x ≠ t),
      (run_hooks_of_type hooks t' false).2 = Except.ok ())
    (hfail : (run_hooks_of_type hooks t false).2 = Except.error e) :
    preErrMsg t e ∈ (runPre hooks running HookType.pre_hooks false []).errs
    ∧ (runPre hooks running HookType.pre_hooks false []).has_error = true := by
  have hmem : t = HookType.connect ∨ t = HookType.verifySystem ∨
      t = HookType.prepareSystem := by
    simpa [HookType.pre_hooks] using ht
  rcases hmem with rfl | rfl | rfl
  · exact runPre_fail_head hooks running _ _ [] e hfail
  · have hc : (run_hooks_of_type hooks HookType.connect false).2
        = Except.ok () := by
      apply hprev
      simp [HookType.pre_hooks, List.takeWhile]
    rw [HookType.pre_hooks, runPre_ok_head hooks running _ _ false [] hc]
    exact runPre_fail_head hooks running _ _ [] e hfail
  · have hc : (run_hooks_of_type hooks HookType.connect false).2
        = Except.ok () := by
      apply hprev
      simp [HookType.pre_hooks, List.takeWhile]
    have hv : (run_hooks_of_type hooks HookType.verifySystem false).2
        = Except.ok () := by
      apply hprev
      simp [HookType.pre_hooks, List.takeWhile]
    rw [HookType.pre_hooks, runPre_ok_head hooks running _ _ false [] hc,
      runPre_ok_head hooks running _ _ false [] hv]
    exact runPre_fail_head hooks running _ _ [] e hfail

/-- Claim C3 counterexample: in a VerifySystem phase whose first hook
fails and whose second hook is tolerant (`continue_on_error() = true`)
and would succeed, `run_hooks_of_type` executes only the failing hook —
the remaining tolerant hook of the same phase is NOT executed, because
the `?` operator returns from the loop at the first failure. -/
theorem C3_counterexample :
    (run_hooks_of_type
        [⟨"a", HookType.verifySystem, false, Except.error "boom"⟩,
          ⟨"b", HookType.verifySystem, true, Except.ok ()⟩]
        HookType.verifySystem false).1
      = [⟨"a", HookType.verifySystem, false, Except.error "boom"⟩]
    ∧ (⟨"b", HookType.verifySystem, true, Except.ok ()⟩ : Hook) ∉
      (run_hooks_of_type
        [⟨"a", HookType.verifySystem, false, Except.error "boom"⟩,
          ⟨"b", HookType.verifySystem, true, Except.ok ()⟩]
        HookType.verifySystem false).1 := by
  constructor
  · rfl
  · decide

lemma execute_records_phase_failure (hooks : List Hook) (running : Bool)
    (testsResult : Except String Unit) (t : HookType) (e : String)
    (ht : t ∈ HookType.pre_hooks)
    (hprev : ∀ t' ∈ HookType.pre_hooks.takeWhile (fun x => x ≠ t),
      (run_hooks_of_type hooks t' false).2 = Except.ok ())
    (hfail : (run_hooks_of_type hooks t false).2 = Except.error e) :
    (∃ tr h, (run_hooks_of_type hooks t false).1 = tr ++ [h]
      ∧ h.runResult = Except.error e
      ∧ ∀ h' ∈ tr, h'.runResult = Except.ok ())
    ∧ preErrMsg t e ∈ (execute hooks none running testsResult).resultsErrors
    ∧ (execute hooks none running testsResult).has_error = true := by
  refine ⟨runHooksGo_error_shape false _ e hfail, ?_, ?_⟩
  · show preErrMsg t e ∈
      (runPost hooks HookType.post_hooks
        (runPre hooks running HookType.pre_hooks false []).has_error
        (runPre hooks running HookType.pre_hooks false []).errs).errs
    obtain ⟨hmem, _⟩ := runPre_records_fail hooks running t e ht hprev hfail
    obtain ⟨tail, htail⟩ := runPost_errs_mono hooks HookType.post_hooks
      (runPre hooks running HookType.pre_hooks false []).has_error
      (runPre hooks running HookType.pre_hooks false []).errs
    rw [htail]
    exact List.mem_append_left _ hmem
  · show (runPost hooks HookType.post_hooks
        (runPre hooks running HookType.pre_hooks false []).has_error
        (runPre hooks running HookType.pre_hooks false []).errs).has_error
      = true
    obtain ⟨_, hhe⟩ := runPre_records_fail hooks running t e ht hprev hfail
    rw [hhe]
    exact runPost_he_true hooks HookType.post_hooks _

/-- Claim C3 (amended): when a hook of a pre-hook phase fails during
`run_hooks_of_type` (the earlier pre phases having completed without
error), the failure is recorded into `Results.error` with a
phase-qualified message and `has_error` stays true for the remainder of
the run; but `run_hooks_of_type` returns at the failing hook, so the
remaining hooks of that phase are not executed even when their
`continue_on_error()` is true — every hook of the phase executed before
the failing one succeeded, and the executed phase trace ends at the
failing hook. -/
theorem C3_hook_failure_recorded (hooks : List Hook) (running : Bool)
    (testsResult : Except String Unit) (t : HookType) (e : String)
    (ht : t ∈ HookType.pre_hooks)
    (hprev : ∀ t' ∈ HookType.pre_hooks.takeWhile (fun x => x ≠ t),
      (run_hooks_of_type hooks t' false).2 = Except.ok ())
    (hfail : (run_hooks_of_type hooks t false).2 = Except.error e) :
    (∃ tr h, (run_hooks_of_type hooks t false).1 = tr ++ [h]
      ∧ h.runResult = Except.error e
      ∧ ∀ h' ∈ tr, h'.runResult = Except.ok ())
    ∧ preErrMsg t e ∈ (execute hooks none running testsResult).resultsErrors
    ∧ (execute hooks none running testsResult).has_error = true :=
  execute_records_phase_failure hooks running testsResult t e ht hprev hfail

/-- Claim C3 witness: a single failing Connect hook; its error is
recorded with the phase-qualified message, `has_error` ends true, and
the phase trace ends at the failing hook. -/
theorem C3_hook_failure_recorded_witness :
    (∃ tr h, (run_hooks_of_type
        [⟨"c", HookType.connect, false, Except.error "boom"⟩]
        HookType.connect false).1 = tr ++ [h]
      ∧ h.runResult = Except.error "boom"
      ∧ ∀ h' ∈ tr, h'.runResult = Except.ok ())
    ∧ preErrMsg HookType.connect "boom" ∈
      (execute [⟨"c", HookType.connect, false, Except.error "boom"⟩]
        none true (Except.ok ())).resultsErrors
    ∧ (execute [⟨"c", HookType.connect, false, Except.error "boom"⟩]
        none true (Except.ok ())).has_error = true :=
  C3_hook_failure_recorded
    [⟨"c", HookType.connect, false, Except.error "boom"⟩]
    true (Except.ok ()) HookType.connect "boom"
    (by decide)
    (by intro t' ht'; simp [HookType.pre_hooks, List.takeWhile] at ht')
    (by rfl)

/-- Configuration of a user-declared hook (`HookConfig` in
`src/models/config.rs`, with the `args` field referenced by
`src/hooks/custom.rs`). -/
structure HookConfig where
  name : String
  hook_type : HookType
  is_async : Bool
  cont_on_error : Bool
  command : String
  args : Option (List String)
  env : Option (List (String × String))

/-- Output captured from a finished command (`CommandOutput` in
`src/models/app_state.rs`). -/
structure CommandOutput where
  stdout : String
  stderr : String
  status : Int
deriving DecidableEq

/-- What the OS reports for a locally spawned process: either the spawn
itself failed, or the process finished with captured output and an exit
status (`status = 0` means success). -/
inductive SpawnOutcome where
  | failed (msg : String)
  | finished (stdout stderr : String) (status : Int)
deriving DecidableEq

/-- `HookCustom::run_local_sync` from `src/hooks/custom.rs`: spawn the
configured command directly (`Command::new(config.command)`); a spawn
failure becomes an error through `auto_err`; otherwise stdout/stderr are
logged to files, a non-zero exit status is only logged with `error!`,
and the function returns `Ok(())` regardless of the exit status. -/
def run_local_sync (cfg : HookConfig) (out : SpawnOutcome) :
    Except String Unit :=
  match out with
  | SpawnOutcome.failed m =>
    Except.error ("Failed to start custom hook sync: " ++ cfg.name ++ ": " ++ m)
  | SpawnOutcome.finished _ _ _ => Except.ok ()

/-- `HookCustom::run_remote_sync` from `src/hooks/custom.rs`: run the
built command string through `CommandUtils::run_command_str`; an
execution error propagates via `?`; otherwise stdout/stderr are logged,
a non-zero remote status is only logged with `error!`, and the function
returns `Ok(())` regardless of the status. -/
def run_remote_sync (cfg : HookConfig) (res : Except String CommandOutput) :
    Except String Unit :=
  match res with
  | Except.error e => Except.error e
  | Except.ok _ => Except.ok ()

/-- Claim C4 counterexample: a local synchronous custom hook whose
command finishes with exit status 1 (non-zero) still makes
`run_local_sync` return `Ok(())` — the claim says `run(ctx)` returns an
error for every non-zero exit status. -/
theorem C4_counterexample :
    run_local_sync
      ⟨"hook1", HookType.prepareSystem, false, false, "false", none, none⟩
      (SpawnOutcome.finished "" "" 1) = Except.ok () := rfl

/-- Claim C4 (amended): a user-declared command hook run synchronously
whose command exits with a non-zero status still returns `Ok` from
`run(ctx)` — the non-zero status is only logged, it is neither fatal nor
recorded.  `run(ctx)` returns an error only when launching/executing the
command itself fails (local spawn failure, or remote execution error);
such a failure is fatal and is recorded into `Results.error` with the
phase-qualified message when the pipeline runs the hook. -/
theorem C4_nonzero_status_not_fatal (cfg : HookConfig)
    (stdout stderr : String) (status : Int) (m e : String)
    (running : Bool) (testsResult : Except String Unit) :
    run_local_sync cfg (SpawnOutcome.finished stdout stderr status)
        = Except.ok ()
    ∧ run_remote_sync cfg (Except.ok ⟨stdout, stderr, status⟩)
        = Except.ok ()
    ∧ run_local_sync cfg (SpawnOutcome.failed m)
        = Except.error
          ("Failed to start custom hook sync: " ++ cfg.name ++ ": " ++ m)
    ∧ run_remote_sync cfg (Except.error e) = Except.error e
    ∧ preErrMsg HookType.connect
        ("Failed to start custom hook sync: " ++ cfg.name ++ ": " ++ m) ∈
        (execute
          [⟨cfg.name, HookType.connect, false,
            run_local_sync cfg (SpawnOutcome.failed m)⟩]
          none running testsResult).resultsErrors := by
  refine ⟨rfl, rfl, rfl, rfl, ?_⟩
  have h := execute_records_phase_failure
    [⟨cfg.name, HookType.connect, false,
      run_local_sync cfg (SpawnOutcome.failed m)⟩]
    running testsResult HookType.connect
    ("Failed to start custom hook sync: " ++ cfg.name ++ ": " ++ m)
    (by simp [HookType.pre_hooks])
    (by intro t' ht'; simp [HookType.pre_hooks, List.takeWhile] at ht')
    (by rfl)
  exact h.2.1

/-- Whitespace as the parser's inputs use it (the Rust code trims with
`char::is_whitespace`; the test output is ASCII, so the ASCII whitespace
characters suffice). -/
def isWs (c : Char) : Bool :=
  c = ' ' || c = '\t' || c = '\n' || c = '\r'

/-- Rust `str::trim` on a line of characters. -/
def trimChars (l : List Char) : List Char :=
  ((l.dropWhile isWs).reverse.dropWhile isWs).reverse

/-- Whether `sub` occurs as a contiguous subsequence of `l`
(Rust `str::contains` with a string pattern). -/
def containsSub (l sub : List Char) : Bool :=
  match l with
  | [] => sub.isEmpty
  | _ :: t => sub.isPrefixOf l || containsSub t sub

/-- Rust `str::split_once(' ')`: split at the first space, dropping it. -/
def splitOnceSpace : List Char → Option (List Char × List Char)
  | [] => none
  | c :: r =>
    if c = ' ' then some ([], r)
    else (splitOnceSpace r).map (fun p => (c :: p.1, p.2))

/-- Rust `str::splitn(2, ':')` as used on a progress line: the part
before the first colon and the part after it (empty when there is no
colon, matching `parts.next().unwrap_or_default()`). -/
def colonSplit : List Char → List Char × List Char
  | [] => ([], [])
  | c :: r =>
    if c = ':' then ([], r)
    else
      let p := colonSplit r
      (c :: p.1, p.2)

/-- Rust `str::split_whitespace`: maximal runs of non-whitespace. -/
def splitWsAux : List Char → List Char → List (List Char)
  | [], acc => if acc.isEmpty then [] else [acc.reverse]
  | c :: r, acc =>
    if isWs c then
      if acc.isEmpty then splitWsAux r [] else acc.reverse :: splitWsAux r []
    else splitWsAux r (c :: acc)

def splitWs (l : List Char) : List (List Char) :=
  splitWsAux l []

/-- Digits of a decimal numeral; `none` when empty or non-digit. -/
def digitsToNat : List Char → Option Nat
  | [] => none
  | l => l.foldl (fun acc c =>
      match acc with
      | none => none
      | some n => if c.isDigit then some (n * 10 + (c.toNat - 48)) else none)
    (some 0)

/-- Rust `str::parse::<i16>()`: an optional sign followed by digits,
rejecting values outside the i16 range (overflow is a parse error). -/
def parseI16 : List Char → Option Int
  | '+' :: r => (digitsToNat r).bind (fun n =>
      if (n : Int) ≤ 32767 then some (n : Int) else none)
  | '-' :: r => (digitsToNat r).bind (fun n =>
      if (n : Int) ≤ 32768 then some (-(n : Int)) else none)
  | l => (digitsToNat l).bind (fun n =>
      if (n : Int) ≤ 32767 then some (n : Int) else none)

/-- One counter of the `+P -F` block:
`s.parse::<i16>().unwrap_or(0).abs()` (the parsed magnitudes here are
far below the i16 boundary where Rust's debug-mode `abs` would panic). -/
def parseCount (l : List Char) : Int :=
  match parseI16 l with
  | some v => |v|
  | none => 0

/-- Strip the `flutter:` prefix used to tag forwarded application logs
(`line.strip_prefix("flutter:").unwrap_or(&line)` in `process_lines`). -/
def stripFlutterTag (l : List Char) : List Char :=
  if ("flutter:".data).isPrefixOf l then l.drop 8 else l

/-- One pattern element of the continuation-request regular expression:
a literal character or the `.` wildcard (any character except newline). -/
def contPattern : List (Option Char) :=
  ("Waiting for DBus method call one".data.map some) ++ [none] ++
    ("playmaster".data.map some) ++ [none] ++ ("E2E".data.map some) ++
    [none] ++ ("Continue(".data.map some)

/-- Match a literal/wildcard pattern at the head of `l`, returning the
remainder. -/
def matchWild : List (Option Char) → List Char → Option (List Char)
  | [], rest => some rest
  | _ :: _, [] => none
  | some c :: ps, x :: xs => if x = c then matchWild ps xs else none
  | none :: ps, x :: xs => if x = '\n' then none else matchWild ps xs

/-- Attempt to match the continuation-request pattern at the head of
`l`: the prefix pattern, then the captured `[^)]*` group, then the
closing parenthesis followed by a space and three wildcard characters. -/
def matchContAt (l : List Char) : Option (List Char) :=
  match matchWild contPattern l with
  | none => none
  | some rest =>
    let cap := rest.takeWhile (fun ch => ch != ')')
    match rest.drop cap.length with
    | ')' :: ' ' :: a :: b :: c :: _ =>
      if a ≠ '\n' ∧ b ≠ '\n' ∧ c ≠ '\n' then some cap else none
    | _ => none

/-- `DbusUtils::identify_continue_request` from `src/utils/dbus.rs`: scan
for the leftmost match of the continuation-request regular expression
and return the captured input name. -/
def identify_continue_request : List Char → Option (List Char)
  | [] => none
  | c :: r =>
    match matchContAt (c :: r) with
    | some cap => some cap
    | none => identify_continue_request r

/-- Test lifecycle events, as the spec's `TestEvent` names the
observable actions of `process_lines`: `started` is the spinner start
for a newly set current test, `passedEv` is `handle_test_passed`,
`failedEv` is `handle_test_failed` with the accumulated per-test
output. -/
inductive TestEvent where
  | started (name : List Char)
  | passedEv (name : List Char)
  | failedEv (name : List Char) (output : List Char)
deriving DecidableEq

/-- Modelled from the spec: the shared `Results` record
(`{passed, failed, total, start_time, end_time, full_log, error}`) and
its `HookContext` accessors (`increment_results_passed`,
`increment_results_failed`, `set_results_total`, `set_results_time`,
`set_results_full_log`) are referenced by the source under verification
but defined outside this source tree.  Times are abstracted to the
timestamps the caller would observe. -/
structure Results where
  passed : Int
  failed : Int
  total : Int
  start_time : Option Int
  end_time : Option Int
  full_log : List Char
  error : List String
deriving DecidableEq

/-- Modelled from the spec: a fresh `Results` with zero counters and
nothing recorded, as `AppState::default()` provides it. -/
def initResults : Results :=
  ⟨0, 0, 0, none, none, [], []⟩

/-- The local state of `RunFlutter::process_lines` while consuming the
line iterator, plus the shared `Results` its `ctx` accessors mutate and
the emitted event list. -/
structure ParseState where
  passed : Int
  failed : Int
  current_test : Option (List Char)
  prev_test_names : List (List Char)
  full_log : List Char
  curr_output : List Char
  collecting : Bool
  events : List TestEvent
  results : Results
deriving DecidableEq

/-- The state `process_lines` starts from: zero counters, no current
test, empty dedup set, empty logs. -/
def initParseState : ParseState :=
  ⟨0, 0, none, [], [], [], false, [], initResults⟩

/-- The `[E]` marker of framework error lines, skipped by the
progress-line detection. -/
def eTag : List Char := "[E]".data

/-- Noise filter of `process_lines`: empty lines, the framework summary
banners, and the driver-internal tag are skipped. -/
def isNoiseLine (l : List Char) : Bool :=
  l.isEmpty || containsSub l ("Some tests failed".data)
    || containsSub l ("All tests passed".data)
    || containsSub l ("VMServiceFlutterDriver".data)

/-- `handle_test_failed` as `process_lines` reaches it: log the failure,
emit the event with the accumulated output, and increment the shared
failed counter (`ctx.increment_results_failed`). -/
def recordFailed (st : ParseState) (name : List Char) : ParseState :=
  { st with
    failed := st.failed + 1
    events := st.events ++ [TestEvent.failedEv name st.curr_output]
    results := { st.results with failed := st.results.failed + 1 } }

/-- `handle_test_passed` as `process_lines` reaches it: log the pass,
emit the event, and increment the shared passed counter
(`ctx.increment_results_passed`). -/
def recordPassed (st : ParseState) (name : List Char) : ParseState :=
  { st with
    passed := st.passed + 1
    events := st.events ++ [TestEvent.passedEv name]
    results := { st.results with passed := st.results.passed + 1 } }

/-- Start a new current test: set it, start the progress spinner
(the `started` event), clear the per-test output accumulator and begin
collecting. -/
def startTest (st : ParseState) (name : List Char) : ParseState :=
  { st with
    current_test := some name
    events := st.events ++ [TestEvent.started name]
    curr_output := []
    collecting := true }

/-- The progress-line branch of `process_lines`, entered with `rest`
being the part of the line after the first space (which starts with `+`
and contains a colon): parse the counter block and the test name,
dedup on the test name, emit failed/passed for the previous current
test when the respective counter moved, then either clear the current
test (setup/teardown pseudo-tests in parentheses) or start the new
test. -/
def handleProgress (st : ParseState) (rest : List Char) : ParseState :=
  let counters := trimChars (colonSplit rest).1
  let test_name := trimChars (colonSplit rest).2
  if st.prev_test_names.contains test_name then st
  else
    let st1 := { st with prev_test_names := test_name :: st.prev_test_names }
    let counts := (splitWs counters).map parseCount
    let curr_passed := counts.headD 0
    let curr_failed := (counts.drop 1).headD 0
    let st2 :=
      match st1.current_test with
      | some name => if curr_failed ≠ st1.failed then recordFailed st1 name else st1
      | none => st1
    let st3 :=
      match st2.current_test with
      | some name => if curr_passed ≠ st2.passed then recordPassed st2 name else st2
      | none => st2
    if test_name.headD ' ' = '(' then { st3 with current_test := none }
    else startTest st3 test_name

/-- The fallthrough of the per-line loop: while a current test is being
collected, non-empty lines are appended to its output accumulator. -/
def collectLine (st : ParseState) (l : List Char) : ParseState :=
  if st.collecting && !l.isEmpty then
    { st with curr_output := st.curr_output ++ l ++ ['\n'] }
  else st

/-- One iteration of the `for line in lines` loop of
`RunFlutter::process_lines` (src/code_run/run_flutter.rs): trim, append
to the full log, skip noise, divert continuation requests to the
interactive-input bridge (which sends a DBus command out of band and
changes no parser state), strip the `flutter:` tag, detect progress
lines, and otherwise collect output for the current test. -/
def processLine (st : ParseState) (raw : List Char) : ParseState :=
  let line := trimChars raw
  let st0 := { st with full_log := st.full_log ++ line ++ ['\n'] }
  if isNoiseLine line then st0
  else if (identify_continue_request line).isSome && st0.current_test.isSome
  then st0
  else
    let l2 := trimChars (stripFlutterTag line)
    match splitOnceSpace l2 with
    | some p =>
      if containsSub p.2 eTag then st0
      else if p.2.headD ' ' = '+' && p.2.contains ':' then
        handleProgress st0 p.2
      else collectLine st0 l2
    | none => collectLine st0 l2

/-- `RunFlutter::process_lines`, assuming every line of the iterator is
read successfully (the claims all make this assumption; a read error
would return early through `?`).  After the loop: store
`total = passed + failed`, the start and end times, and the full log
into the shared `Results`, then return an error exactly when `failed`
is positive. -/
def process_lines (lines : List (List Char)) (startT endT : Int) :
    ParseState × Except String Unit :=
  let st := lines.foldl processLine initParseState
  let st2 := { st with
    results := { st.results with
      total := st.passed + st.failed
      start_time := some startT
      end_time := some endT
      full_log := st.full_log } }
  (st2, if st2.failed > 0 then Except.error "Some tests failed" else Except.ok ())

/-- The five-line sample stream of the specification's round-trip
property. -/
def sampleRoundTripLines : List (List Char) :=
  ["00:01 +0: Setup".data,
    "00:02 +0 -0: Feature - Case A".data,
    "00:05 +1 -0: Feature - Case A".data,
    "00:06 +1 -0: Feature - Case B".data,
    "00:09 +1 -1: Feature - Case B".data]

/-- Claim C2 counterexample: on the five sample lines the final failed
counter is 0 (not 1) and the final total is 1 (not 2): the third and
fifth lines repeat test names already registered in `prev_test_names`,
so the dedup check skips them before their counter blocks are read. -/
theorem C2_counterexample :
    ¬((process_lines sampleRoundTripLines 0 0).1.failed = 1
      ∧ (process_lines sampleRoundTripLines 0 0).1.results.total = 2) := by
  decide

/-- Claim C2 (amended): feeding `process_lines` the five sample lines
produces exactly the events Started(Setup), Started(Feature - Case A),
Passed(Feature - Case A), Started(Feature - Case B) and final counters
passed = 1, failed = 0, total = 1 with an overall `Ok` result: the
name-based dedup makes the repeated-name progress lines (third and
fifth) be skipped, so Case A's pass is only detected at Case B's start
line and Case B's failure is never counted. -/
theorem C2_round_trip_sample :
    (process_lines sampleRoundTripLines 0 0).1.events
      = [TestEvent.started "Setup".data,
          TestEvent.started "Feature - Case A".data,
          TestEvent.passedEv "Feature - Case A".data,
          TestEvent.started "Feature - Case B".data]
    ∧ (process_lines sampleRoundTripLines 0 0).1.passed = 1
    ∧ (process_lines sampleRoundTripLines 0 0).1.failed = 0
    ∧ (process_lines sampleRoundTripLines 0 0).1.results.total = 1
    ∧ (process_lines sampleRoundTripLines 0 0).2 = Except.ok () := by
  decide

/-- The pure characterization of a line that reaches the progress-line
branch of `process_lines` (independently of the parser state: a line
matching the continuation-request pattern is required not to occur, so
that the line is treated the same whatever `current_test` is), together
with the test name the branch extracts from it. -/
def progressNameOf (raw : List Char) : Option (List Char) :=
  let line := trimChars raw
  if isNoiseLine line then none
  else if (identify_continue_request line).isSome then none
  else
    let l2 := trimChars (stripFlutterTag line)
    match splitOnceSpace l2 with
    | some p =>
      if containsSub p.2 eTag then none
      else if p.2.headD ' ' = '+' && p.2.contains ':' then
        some (trimChars (colonSplit p.2).2)
      else none
    | none => none

lemma handleProgress_counts (st : ParseState) (rest : List Char) :
    st.passed ≤ (handleProgress st rest).passed
    ∧ st.failed ≤ (handleProgress st rest).failed
    ∧ (handleProgress st rest).results.total = st.results.total := by
  simp only [handleProgress]
  repeat' split
  all_goals simp [recordFailed, recordPassed, startTest]

lemma collectLine_counts (st : ParseState) (l : List Char) :
    st.passed ≤ (collectLine st l).passed
    ∧ st.failed ≤ (collectLine st l).failed
    ∧ (collectLine st l).results.total = st.results.total := by
  simp only [collectLine]
  split <;> simp

lemma processLine_counts (st : ParseState) (raw : List Char) :
    st.passed ≤ (processLine st raw).passed
    ∧ st.failed ≤ (processLine st raw).failed
    ∧ (processLine st raw).results.total = st.results.total := by
  simp only [processLine]
  repeat' split
  all_goals
    first
      | exact ⟨(handleProgress_counts _ _).1, (handleProgress_counts _ _).2.1,
          (handleProgress_counts _ _).2.2⟩
      | exact ⟨(collectLine_counts _ _).1, (collectLine_counts _ _).2.1,
          (collectLine_counts _ _).2.2⟩
      | simp

lemma foldl_counts_mono (lines : List (List Char)) :
    ∀ st : ParseState,
      st.passed ≤ (lines.foldl processLine st).passed
      ∧ st.failed ≤ (lines.foldl processLine st).failed := by
  induction lines with
  | nil => intro st; simp
  | cons l rest ih =>
    intro st
    have h1 := processLine_counts st l
    have h2 := ih (processLine st l)
    exact ⟨le_trans h1.1 h2.1, le_trans h1.2.1 h2.2⟩

/-- Claim C6: over any line stream, the passed and failed counters of
`process_lines` are non-decreasing — each line step can only keep or
increase them, hence any extension of the stream keeps or increases the
final counters — the per-line step never touches `Results.total` (it is
not maintained incrementally), and when the iterator ends the stored
total equals passed + failed. -/
theorem C6_counter_monotonicity :
    (∀ (st : ParseState) (raw : List Char),
      st.passed ≤ (processLine st raw).passed
      ∧ st.failed ≤ (processLine st raw).failed
      ∧ (processLine st raw).results.total = st.results.total)
    ∧ (∀ pre ext : List (List Char),
      (pre.foldl processLine initParseState).passed ≤
        ((pre ++ ext).foldl processLine initParseState).passed
      ∧ (pre.foldl processLine initParseState).failed ≤
        ((pre ++ ext).foldl processLine initParseState).failed)
    ∧ (∀ (lines : List (List Char)) (a b : Int),
      (process_lines lines a b).1.results.total
        = (process_lines lines a b).1.passed
          + (process_lines lines a b).1.failed) := by
  refine ⟨processLine_counts, ?_, ?_⟩
  · intro pre ext
    rw [List.foldl_append]
    exact foldl_counts_mono ext (pre.foldl processLine initParseState)
  · intro lines a b
    simp [process_lines]

lemma progressNameOf_spec (raw n : List Char) (hn : progressNameOf raw = some n) :
    isNoiseLine (trimChars raw) = false
    ∧ (identify_continue_request (trimChars raw)).isSome = false
    ∧ ∃ p : List Char × List Char,
        splitOnceSpace (trimChars (stripFlutterTag (trimChars raw))) = some p
        ∧ containsSub p.2 eTag = false
        ∧ (decide (p.2.headD ' ' = '+') && p.2.contains ':') = true
        ∧ n = trimChars (colonSplit p.2).2 := by
  simp only [progressNameOf] at hn
  by_cases h1 : isNoiseLine (trimChars raw) = true
  · rw [if_pos h1] at hn; exact absurd hn (by simp)
  · rw [if_neg h1] at hn
    by_cases h2 : (identify_continue_request (trimChars raw)).isSome = true
    · rw [if_pos h2] at hn; exact absurd hn (by simp)
    · rw [if_neg h2] at hn
      rcases hsp : splitOnceSpace (trimChars (stripFlutterTag (trimChars raw)))
        with _ | p
      · rw [hsp] at hn; exact absurd hn (by simp)
      · simp only [hsp] at hn
        by_cases h3 : containsSub p.2 eTag = true
        · rw [if_pos h3] at hn; exact absurd hn (by simp)
        · rw [if_neg h3] at hn
          by_cases h4 : (decide (p.2.headD ' ' = '+') && p.2.contains ':') = true
          · rw [if_pos h4] at hn
            simp at hn
            exact ⟨by simpa using h1, by simpa using h2, p, rfl,
              by simpa using h3, h4, hn.symm⟩
          · rw [if_neg h4] at hn; exact absurd hn (by simp)

lemma processLine_progress_eq (st : ParseState) (raw : List Char)
    (p : List Char × List Char)
    (h1 : isNoiseLine (trimChars raw) = false)
    (h2 : (identify_continue_request (trimChars raw)).isSome = false)
    (hsp : splitOnceSpace (trimChars (stripFlutterTag (trimChars raw))) = some p)
    (h3 : containsSub p.2 eTag = false)
    (h4 : (decide (p.2.headD ' ' = '+') && p.2.contains ':') = true) :
    processLine st raw = handleProgress
      { st with full_log := st.full_log ++ trimChars raw ++ ['\n'] } p.2 := by
  simp only [processLine, hsp, h1, h2, h3, h4]
  simp

lemma handleProgress_skip (st : ParseState) (rest : List Char)
    (hc : st.prev_test_names.contains (trimChars (colonSplit rest).2) = true) :
    handleProgress st rest = st := by
  simp only [handleProgress]
  rw [if_pos hc]

lemma handleProgress_prev (st : ParseState) (rest : List Char) :
    ((handleProgress st rest).prev_test_names = st.prev_test_names
      ∧ st.prev_test_names.contains (trimChars (colonSplit rest).2) = true)
    ∨ (handleProgress st rest).prev_test_names
        = trimChars (colonSplit rest).2 :: st.prev_test_names := by
  simp only [handleProgress]
  split
  · left; constructor
    · rfl
    · assumption
  · right
    repeat' split
    all_goals simp [recordFailed, recordPassed, startTest]

lemma collectLine_prev (st : ParseState) (l : List Char) :
    (collectLine st l).prev_test_names = st.prev_test_names := by
  simp only [collectLine]
  split <;> rfl

lemma processLine_prev_mono (st : ParseState) (raw m : List Char)
    (hm : m ∈ st.prev_test_names) : m ∈ (processLine st raw).prev_test_names := by
  simp only [processLine]
  repeat' split
  all_goals
    first
      | exact hm
      | (rcases handleProgress_prev _ _ with ⟨hpe, _⟩ | hpe
         · rw [hpe]; exact hm
         · rw [hpe]; exact List.mem_cons_of_mem _ hm)
      | (rw [collectLine_prev]; exact hm)

lemma processLine_registers (st : ParseState) (raw n : List Char)
    (hn : progressNameOf raw = some n) :
    n ∈ (processLine st raw).prev_test_names := by
  obtain ⟨h1, h2, p, hsp, h3, h4, hname⟩ := progressNameOf_spec raw n hn
  rw [processLine_progress_eq st raw p h1 h2 hsp h3 h4]
  subst hname
  rcases handleProgress_prev
      { st with full_log := st.full_log ++ trimChars raw ++ ['\n'] } p.2
    with ⟨hpe, hc⟩ | hpe
  · rw [hpe]; exact List.elem_iff.mp hc
  · rw [hpe]; exact List.mem_cons_self _ _

/-- Claim C7: a progress line whose test name is already in
`prev_test_names` is skipped entirely — the per-line step only appends
the line to the full log and changes nothing else, so it emits no
Passed/Failed (or Started) event; processing any progress line puts its
name into `prev_test_names`, and `prev_test_names` only ever grows, so
the second occurrence of an identical progress line is always skipped
and all events come from the first occurrence alone. -/
theorem C7_progress_line_dedup (st : ParseState) (raw n : List Char)
    (hn : progressNameOf raw = some n) (hmem : n ∈ st.prev_test_names) :
    processLine st raw
      = { st with full_log := st.full_log ++ trimChars raw ++ ['\n'] }
    ∧ (∀ (st2 : ParseState) (raw2 n2 : List Char),
        progressNameOf raw2 = some n2 →
        n2 ∈ (processLine st2 raw2).prev_test_names)
    ∧ (∀ (st3 : ParseState) (raw3 m : List Char),
        m ∈ st3.prev_test_names → m ∈ (processLine st3 raw3).prev_test_names) := by
  obtain ⟨h1, h2, p, hsp, h3, h4, hname⟩ := progressNameOf_spec raw n hn
  refine ⟨?_, processLine_registers, processLine_prev_mono⟩
  rw [processLine_progress_eq st raw p h1 h2 hsp h3 h4]
  apply handleProgress_skip
  exact List.elem_iff.mpr (hname ▸ hmem)

/-- Claim C7 witness: replaying the progress line `00:05 +1 -0: X` when
`X` is already registered leaves the whole parser state unchanged except
for the full log. -/
theorem C7_progress_line_dedup_witness :
    processLine
        ⟨0, 0, some ("X".data), ["X".data], [], [], true, [], initResults⟩
        ("00:05 +1 -0: X".data)
      = { (⟨0, 0, some ("X".data), ["X".data], [], [], true, [], initResults⟩ :
            ParseState) with
          full_log := ([] : List Char) ++ trimChars ("00:05 +1 -0: X".data)
            ++ ['\n'] } :=
  (C7_progress_line_dedup _ _ ("X".data) (by decide) (by decide)).1

lemma handleProgress_sync (st : ParseState) (rest : List Char)
    (hp : st.results.passed = st.passed) (hf : st.results.failed = st.failed) :
    (handleProgress st rest).results.passed = (handleProgress st rest).passed
    ∧ (handleProgress st rest).results.failed = (handleProgress st rest).failed := by
  simp only [handleProgress]
  repeat' split
  all_goals simp [recordFailed, recordPassed, startTest, hp, hf]

lemma collectLine_sync (st : ParseState) (l : List Char)
    (hp : st.results.passed = st.passed) (hf : st.results.failed = st.failed) :
    (collectLine st l).results.passed = (collectLine st l).passed
    ∧ (collectLine st l).results.failed = (collectLine st l).failed := by
  simp only [collectLine]
  split <;> simp [hp, hf]

lemma processLine_sync (st : ParseState) (raw : List Char)
    (hp : st.results.passed = st.passed) (hf : st.results.failed = st.failed) :
    (processLine st raw).results.passed = (processLine st raw).passed
    ∧ (processLine st raw).results.failed = (processLine st raw).failed := by
  simp only [processLine]
  repeat' split
  all_goals
    first
      | exact ⟨hp, hf⟩
      | exact handleProgress_sync _ _ hp hf
      | exact collectLine_sync _ _ hp hf

lemma foldl_sync (lines : List (List Char)) :
    ∀ st : ParseState, st.results.passed = st.passed →
      st.results.failed = st.failed →
      (lines.foldl processLine st).results.passed
        = (lines.foldl processLine st).passed
      ∧ (lines.foldl processLine st).results.failed
        = (lines.foldl processLine st).failed := by
  induction lines with
  | nil => intro st hp hf; exact ⟨hp, hf⟩
  | cons l rest ih =>
    intro st hp hf
    have h := processLine_sync st l hp hf
    exact ih (processLine st l) h.1 h.2

/-- Claim C8: assuming every line of the iterator is read successfully,
`process_lines` returns the error "Some tests failed" exactly when the
final failed counter is positive; and in either case the totals
(`total = passed + failed`), the start and end times, and the full
accumulated log have already been stored into the shared `Results` in
the value the caller observes, with the shared counters agreeing with
the parser's counters. -/
theorem C8_failure_surfaced_after_reporting (lines : List (List Char))
    (a b : Int) :
    ((process_lines lines a b).2 = Except.error "Some tests failed"
      ↔ 0 < (process_lines lines a b).1.failed)
    ∧ (process_lines lines a b).1.results.total
        = (process_lines lines a b).1.passed + (process_lines lines a b).1.failed
    ∧ (process_lines lines a b).1.results.start_time = some a
    ∧ (process_lines lines a b).1.results.end_time = some b
    ∧ (process_lines lines a b).1.results.full_log
        = (process_lines lines a b).1.full_log
    ∧ (process_lines lines a b).1.results.failed
        = (process_lines lines a b).1.failed
    ∧ (process_lines lines a b).1.results.passed
        = (process_lines lines a b).1.passed := by
  have hsync := foldl_sync lines initParseState rfl rfl
  simp only [process_lines]
  refine ⟨?_, by simp, by simp, by simp, by simp,
    by simpa using hsync.2, by simpa using hsync.1⟩
  split
  · simp_all
  · simp_all

/-- Line splitting of the reader thread of
`RemoteInfo::exec_remote_stream` (src/models/app_state.rs): accumulate
bytes in a buffer; whenever the buffer holds a `\n`, drain up to and
including it and send the drained segment with its trailing newlines
stripped (`trim_end_matches('\n')`).  Returns the complete lines sent so
far and the undelimited remainder left in the buffer. -/
def splitNlAux (acc : List Char) : List Char → List (List Char) × List Char
  | [] => ([], acc.reverse)
  | c :: r =>
    if c = '\n' then
      let p := splitNlAux [] r
      (acc.reverse :: p.1, p.2)
    else splitNlAux (c :: acc) r

def splitNl (buf : List Char) : List (List Char) × List Char :=
  splitNlAux [] buf

/-- The full line sequence the iterator returned by
`exec_remote_stream` yields when the reader thread receives `bytes`
followed by EOF: every complete line in arrival order, then — if the
buffer still holds undelimited bytes — that remainder flushed as a final
line; afterwards the channel closes and the iterator ends.  (The
`String::from_utf8` check never drops data here because the model works
on characters.) -/
def exec_remote_stream_lines (bytes : List Char) : List (List Char) :=
  let p := splitNl bytes
  p.1 ++ (if p.2.isEmpty then [] else [p.2])

/-- Claim C9: feeding the reader thread the byte sequence
`abc\ndef\ngh` (no trailing newline) followed by EOF yields exactly the
lines `abc`, `def` and then the flushed remainder `gh`, in that order,
and then the stream ends. -/
theorem C9_remote_line_splitting :
    exec_remote_stream_lines ("abc\ndef\ngh".data)
      = ["abc".data, "def".data, "gh".data] := by
  decide

/-- `CommandUtils::with_env_source` from `src/utils/command.rs`:
prefix a command with sourcing the run's root-dir `.bashrc`. -/
def with_env_source (root_dir s : String) : String :=
  "source " ++ root_dir ++ "/.bashrc > /dev/null 2>&1 || true; " ++ s

/-- How a command leaves `CommandUtils::run_command_str`: locally the
string goes to `bash -c`, remotely to `RemoteInfo::exec`. -/
inductive DispatchedCmd where
  | localBash (cmd : String)
  | remoteExec (cmd : String)
deriving DecidableEq

/-- The command text actually handed to the shell/SSH session. -/
def DispatchedCmd.text : DispatchedCmd → String
  | .localBash c => c
  | .remoteExec c => c

/-- `CommandUtils::run_command_str` from `src/utils/command.rs`, as the
dispatch it performs: rewrite the command with `with_env_source`, then
run it through `bash -c` locally or `remote.exec` when a remote is
present. -/
def run_command_str (cmd : String) (remote : Bool) (root_dir : String) :
    DispatchedCmd :=
  let c := with_env_source root_dir cmd
  if remote then DispatchedCmd.remoteExec c else DispatchedCmd.localBash c

/-- `DbusUtils::dbus_method_continue_cmd` from `src/utils/dbus.rs`. -/
def dbus_method_continue_cmd (input : String) : String :=
  "busctl --user call one.playmaster.E2E /one/playmaster/E2E " ++
    "one.playmaster.E2E Continue s \"" ++ input ++ "\""

/-- The continuation command dispatch of
`RunFlutter::process_user_input`: the DBus continue command goes through
`CommandUtils::run_command_str`. -/
def continue_cmd_dispatch (input : String) (remote : Bool)
    (root_dir : String) : DispatchedCmd :=
  run_command_str (dbus_method_continue_cmd input) remote root_dir

/-- The kill command `CommandUtils::terminate_remote_cmds` issues for a
tracked remote command: `pkill -f "<command>"`, dispatched through
`run_command_str` with a remote present. -/
def terminate_remote_cmd_dispatch (command root_dir : String) :
    DispatchedCmd :=
  run_command_str ("pkill -f \"" ++ command ++ "\"") true root_dir

/-- The local invocation `HookCustom::run_local_sync` spawns
(src/hooks/custom.rs): `Command::new(config.command)` with the
configured args — the command is executed directly, not through a shell
and not through `CommandUtils::run_command_str`. -/
def run_local_sync_invocation (cfg : HookConfig) : String × List String :=
  (cfg.command, cfg.args.getD [])

/-- `HookCustom::build_cmd_string`: inline env assignments, then the
command, then the args joined by spaces. -/
def build_cmd_string (cfg : HookConfig) : String :=
  (match cfg.env with
    | some envs => String.join (envs.map (fun kv =>
        kv.1 ++ "='" ++ kv.2 ++ "' "))
    | none => "") ++
  cfg.command ++
  (match cfg.args with
    | some args => " " ++ String.intercalate " " args
    | none => "")

/-- The local invocation `HookCustom::run_local_async` spawns:
`sh -c <built command string>` — again not through `run_command_str`. -/
def run_local_async_invocation (cfg : HookConfig) : String × List String :=
  ("sh", ["-c", build_cmd_string cfg])

/-- Claim C10 counterexample: a local synchronous custom hook with
command `true` is spawned as the program `true` directly; the dispatched
program text does not start with (or contain) the
`source {root_dir}/.bashrc` prefix the claim asserts for every
custom-hook command. -/
theorem C10_counterexample :
    (run_local_sync_invocation
        ⟨"hook1", HookType.prepareSystem, false, false, "true", none, none⟩).1
      = "true"
    ∧ ("source").isPrefixOf
        (run_local_sync_invocation
          ⟨"hook1", HookType.prepareSystem, false, false, "true", none,
            none⟩).1 = false := by
  constructor
  · rfl
  · decide

/-- Claim C10 (amended): every command dispatched through
`CommandUtils::run_command_str` — locally via `bash -c` or remotely via
`RemoteInfo::exec` — is first rewritten to be prefixed with
`source {root_dir}/.bashrc > /dev/null 2>&1 || true; `; the continuation
(DBus) command and the remote kill command are dispatched through
`run_command_str` and therefore carry that prefix; but custom-hook
commands executed locally (sync or async) are spawned directly without
`run_command_str` and get no such prefix. -/
theorem C10_env_source_rewrite (cmd root_dir input command : String)
    (remote : Bool) (cfg : HookConfig) :
    (run_command_str cmd remote root_dir).text = with_env_source root_dir cmd
    ∧ with_env_source root_dir cmd
        = "source " ++ root_dir ++ "/.bashrc > /dev/null 2>&1 || true; " ++ cmd
    ∧ continue_cmd_dispatch input remote root_dir
        = run_command_str (dbus_method_continue_cmd input) remote root_dir
    ∧ terminate_remote_cmd_dispatch command root_dir
        = DispatchedCmd.remoteExec
          (with_env_source root_dir ("pkill -f \"" ++ command ++ "\""))
    ∧ (run_local_sync_invocation cfg).1 = cfg.command
    ∧ (run_local_async_invocation cfg).1 = "sh" := by
  refine ⟨?_, rfl, rfl, rfl, rfl, rfl⟩
  cases remote <;> rfl

end Playmaster
